import Mathlib

/-!
# Verification of the hoosat-sdk fee, builder, codec and client subsystem

Shallow embedding of the hoosat-sdk transaction-construction core and of the
gRPC client front end, together with proofs of the behavioural properties the
specification states about them.  Components whose sources are not part of the
provided tree (mass calculator, transaction builder, codecs, signer) are
modelled from the specification text, as flagged in their doc comments.
-/

namespace Hoosat

/-! ## Mass calculator and minimum fee (spec §4.6, §6) -/

/-- Protocol floor for the minimum transaction fee, in sompi (spec §4.6:
"floored at a protocol-defined minimum (observed floor: 3250 smallest-unit)"). -/
def MINIMUM_RELAY_FEE : Nat := 3250

/-- Mass charged per signature operation (compute component, one sig-op per input). -/
def MASS_PER_SIG_OP : Nat := 1000

/-- Storage mass charged per output (storage component weighted by output count). -/
def STORAGE_MASS_PER_OUTPUT : Nat := 400

/-- Serialized size of the fixed transaction framing, in bytes. -/
def BASE_TX_SIZE : Nat := 251

/-- Serialized size contributed by one input, in bytes. -/
def INPUT_SIZE : Nat := 118

/-- Serialized size contributed by one output, in bytes. -/
def OUTPUT_SIZE : Nat := 43

/-- Modelled from the spec: `computeMass` of the MassCalculator (its source is
not in the provided tree).  Spec §4.6 states the mass combines a size component
(serialized byte length), a compute component (weighted by signature-operation
count, one per input) and a storage component (weighted by output count); §9
notes the exact weighting coefficients are not recoverable from this repository,
so the coefficients above are pinned to reproduce the spec's golden vector
(5 inputs, 2 outputs, no payload ⇒ minimum fee 6727). -/
def computeMass (inputsCount outputsCount payloadSize : Nat) : Nat :=
  (BASE_TX_SIZE + inputsCount * INPUT_SIZE + outputsCount * OUTPUT_SIZE + payloadSize)
    + inputsCount * MASS_PER_SIG_OP
    + outputsCount * STORAGE_MASS_PER_OUTPUT

/-- Modelled from the spec: `calculateMinFee(inputCount, outputCount, payloadSize)`
(spec §6 fee-formula contract; the HoosatCrypto source is not in the provided
tree).  The mass-based fee is floored at the protocol minimum (spec §4.6). -/
def calculateMinFee (inputsCount outputsCount payloadSize : Nat) : Nat :=
  max (computeMass inputsCount outputsCount payloadSize) MINIMUM_RELAY_FEE

/-- C1: the minimum-fee computation returns exactly 6727 sompi for 5 inputs,
2 outputs and payload size 0, and for every input/output/payload combination
it never returns less than the protocol floor of 3250 sompi. -/
theorem calculateMinFee_golden_vector_and_floor :
    calculateMinFee 5 2 0 = 6727 ∧
      ∀ i o p : Nat, 3250 ≤ calculateMinFee i o p := by
  refine ⟨by decide, fun i o p => ?_⟩
  have h := le_max_right (computeMass i o p) MINIMUM_RELAY_FEE
  simp only [calculateMinFee, MINIMUM_RELAY_FEE] at h ⊢
  exact h

/-! ## HoosatClient constructor (src/src/client/client.ts:222-254) -/

/-- One entry of a multi-node configuration (`NodeConfig` in client.types). -/
structure NodeConfig where
  host : String
  port : Nat
  timeout : Option Nat := none
  primary : Bool := false
  name : Option String := none

/-- `HoosatClientConfig`: every field is optional (the constructor takes
`config: HoosatClientConfig = {}`). -/
structure HoosatClientConfig where
  host : Option String := none
  port : Option Nat := none
  timeout : Option Nat := none
  nodes : Option (List NodeConfig) := none
  retryAttempts : Option Nat := none
  retryDelay : Option Nat := none

/-- TypeScript `x || d` on an optional number: `undefined` and `0` are falsy. -/
def orNat (x : Option Nat) (d : Nat) : Nat :=
  match x with
  | none => d
  | some n => if n = 0 then d else n

/-- TypeScript `x || d` on an optional string: `undefined` and `""` are falsy. -/
def orStr (x : Option String) (d : String) : String :=
  match x with
  | none => d
  | some s => if s = "" then d else s

/-- The connection settings the constructor stores in its private fields. -/
structure ClientSettings where
  host : String
  port : Nat
  timeout : Nat
  retryAttempts : Nat
  retryDelay : Nat
  isMultiNode : Bool

/-- `CLIENT_DEFAULT_CONFIG.HOST` (client.ts:48). -/
def CLIENT_DEFAULT_HOST : String := "127.0.0.1"

/-- `CLIENT_DEFAULT_CONFIG.PORT` (client.ts:49). -/
def CLIENT_DEFAULT_PORT : Nat := 42420

/-- `CLIENT_DEFAULT_CONFIG.TIMEOUT` (client.ts:50). -/
def CLIENT_DEFAULT_TIMEOUT : Nat := 10000

/-- The field-initialisation part of the `HoosatClient` constructor
(client.ts:222-239): multi-node mode iff `config.nodes` is a non-empty array,
in which case host/port/timeout come from `nodes[0]`; otherwise the single-node
defaults apply; retry settings default in both modes. -/
def hoosatClientInit (config : HoosatClientConfig) : ClientSettings :=
  match config.nodes with
  | some (n0 :: _) =>
      { host := n0.host
        port := n0.port
        timeout := orNat n0.timeout (orNat config.timeout CLIENT_DEFAULT_TIMEOUT)
        retryAttempts := orNat config.retryAttempts 3
        retryDelay := orNat config.retryDelay 1000
        isMultiNode := true }
  | _ =>
      { host := orStr config.host CLIENT_DEFAULT_HOST
        port := orNat config.port CLIENT_DEFAULT_PORT
        timeout := orNat config.timeout CLIENT_DEFAULT_TIMEOUT
        retryAttempts := orNat config.retryAttempts 3
        retryDelay := orNat config.retryDelay 1000
        isMultiNode := false }

/-- C10: with a non-empty `nodes` array the host and port come from its first
element (whatever the `primary` flags say); otherwise missing host, port and
timeout default to `'127.0.0.1'`, `42420` and `10000`; missing `retryAttempts`
and `retryDelay` default to `3` and `1000`. -/
theorem hoosatClientInit_defaults (config : HoosatClientConfig)
    (n0 : NodeConfig) (rest : List NodeConfig) :
    (config.nodes = some (n0 :: rest) →
      (hoosatClientInit config).host = n0.host ∧
        (hoosatClientInit config).port = n0.port) ∧
    ((config.nodes = none ∨ config.nodes = some []) →
      config.host = none → config.port = none → config.timeout = none →
      (hoosatClientInit config).host = "127.0.0.1" ∧
        (hoosatClientInit config).port = 42420 ∧
        (hoosatClientInit config).timeout = 10000) ∧
    (config.retryAttempts = none → (hoosatClientInit config).retryAttempts = 3) ∧
    (config.retryDelay = none → (hoosatClientInit config).retryDelay = 1000) := by
  refine ⟨fun h => ?_, fun h hh hp ht => ?_, fun h => ?_, fun h => ?_⟩
  · simp [hoosatClientInit, h]
  · rcases h with h | h <;>
      simp [hoosatClientInit, h, hh, hp, ht, orStr, orNat,
        CLIENT_DEFAULT_HOST, CLIENT_DEFAULT_PORT, CLIENT_DEFAULT_TIMEOUT]
  · cases hn : config.nodes with
    | none => simp [hoosatClientInit, hn, h, orNat]
    | some ns => cases ns <;> simp [hoosatClientInit, hn, h, orNat]
  · cases hn : config.nodes with
    | none => simp [hoosatClientInit, hn, h, orNat]
    | some ns => cases ns <;> simp [hoosatClientInit, hn, h, orNat]

/-- Witness for C10: a two-node configuration (whose second node is flagged
primary) connects to the first node, and an empty configuration yields every
default. -/
theorem hoosatClientInit_defaults_witness :
    (hoosatClientInit
        { nodes := some
            [{ host := "node-a", port := 16110 },
             { host := "node-b", port := 16111, primary := true }] }).host = "node-a" ∧
    (hoosatClientInit
        { nodes := some
            [{ host := "node-a", port := 16110 },
             { host := "node-b", port := 16111, primary := true }] }).port = 16110 ∧
    (hoosatClientInit {}).host = "127.0.0.1" ∧
    (hoosatClientInit {}).port = 42420 ∧
    (hoosatClientInit {}).timeout = 10000 ∧
    (hoosatClientInit {}).retryAttempts = 3 ∧
    (hoosatClientInit {}).retryDelay = 1000 := by
  have h1 := (hoosatClientInit_defaults
      { nodes := some
          [{ host := "node-a", port := 16110 },
           { host := "node-b", port := 16111, primary := true }] }
      { host := "node-a", port := 16110 }
      [{ host := "node-b", port := 16111, primary := true }]).1 rfl
  have h2 := hoosatClientInit_defaults {} { host := "x", port := 0 } []
  exact ⟨h1.1, h1.2, (h2.2.1 (Or.inl rfl) rfl rfl rfl).1,
    (h2.2.1 (Or.inl rfl) rfl rfl rfl).2.1, (h2.2.1 (Or.inl rfl) rfl rfl rfl).2.2,
    h2.2.2.1 rfl, h2.2.2.2 rfl⟩

/-! ## Transaction builder (spec §4.7, §7; HoosatTxBuilder's source is not in
the provided tree, so the builder is modelled from the spec) -/

/-- A transaction outpoint referenced by a builder input. -/
structure BuilderOutpoint where
  transactionId : String
  index : Nat
deriving DecidableEq

/-- A builder input: the referenced UTXO's outpoint and its amount, in sompi. -/
structure BuilderInput where
  outpoint : BuilderOutpoint
  amount : Nat
deriving DecidableEq

/-- Whether a builder output was requested by `addOutput` (a recipient) or was
appended by `addChangeOutput`. -/
inductive OutputKind where
  | recipient
  | change
deriving DecidableEq

/-- A builder output: amount in sompi, destination address, and its kind. -/
structure BuilderOutput where
  amount : Nat
  address : String
  kind : OutputKind
deriving DecidableEq

/-- The builder's accumulated state (spec §4.7). -/
structure BuilderState where
  inputs : List BuilderInput
  outputs : List BuilderOutput
  fee : Nat
  lockTime : Nat
deriving DecidableEq

/-- Error classes of spec §7 that the builder raises. -/
inductive BuildError where
  | InvalidAddress
  | InvalidAmount
  | TooManyRecipients
  | InsufficientFunds
  | NoInputs
  | NoOutputs
  | DuplicateOutpoint
deriving DecidableEq

/-- Sum of the builder's input amounts (`getTotalInputAmount`). -/
def totalInput (st : BuilderState) : Nat :=
  (st.inputs.map BuilderInput.amount).sum

/-- Sum of the builder's output amounts (`getTotalOutputAmount`). -/
def totalOutput (st : BuilderState) : Nat :=
  (st.outputs.map BuilderOutput.amount).sum

/-- Number of recipient outputs already requested via `addOutput`. -/
def recipientCount (st : BuilderState) : Nat :=
  (st.outputs.filter (fun o => o.kind = OutputKind.recipient)).length

/-- Modelled from the spec: the dust threshold below which `addChangeOutput`
silently omits the change output (spec §4.7 and glossary).  The spec names the
threshold but fixes no value; 1000 sompi is assumed here. -/
def DUST_THRESHOLD : Nat := 1000

/-- Modelled from the spec: `addOutput(address, amount)` (spec §4.7) appends a
recipient output, failing with `TooManyRecipients` once more than 2 recipient
outputs are requested.  The model has no configuration knob that could lift
the limit, matching the spec's "deliberate, protocol-mandated" wording. -/
def addOutput (st : BuilderState) (address : String) (amount : Nat) :
    Except BuildError BuilderState :=
  if 2 ≤ recipientCount st then Except.error BuildError.TooManyRecipients
  else Except.ok
    { st with outputs := st.outputs ++ [⟨amount, address, OutputKind.recipient⟩] }

/-- Modelled from the spec: `addChangeOutput(address)` (spec §4.7) computes
`change = Σinputs − Σoutputs − fee` and appends a change output carrying it,
unless the change is below the dust threshold, in which case the builder state
is left untouched. -/
def addChangeOutput (st : BuilderState) (changeAddress : String) : BuilderState :=
  let change : Int := (totalInput st : Int) - (totalOutput st : Int) - (st.fee : Int)
  if change < (DUST_THRESHOLD : Int) then st
  else { st with outputs := st.outputs ++ [⟨change.toNat, changeAddress, OutputKind.change⟩] }

/-- The unsigned transaction `build()` returns. -/
structure BuiltTransaction where
  inputs : List BuilderInput
  outputs : List BuilderOutput
  fee : Nat
  lockTime : Nat
deriving DecidableEq

/-- Modelled from the spec: `build()` (spec §4.7) validates the build-time
invariants in the order the spec lists them — at least one input; at least one
output; total outputs ≤ 3; recipient outputs ≤ 2; `Σoutputs + fee ≤ Σinputs`;
every referenced outpoint at most once — and returns the unsigned transaction
with the accumulated inputs and outputs unchanged. -/
def build (st : BuilderState) : Except BuildError BuiltTransaction :=
  if st.inputs.length = 0 then Except.error BuildError.NoInputs
  else if st.outputs.length = 0 then Except.error BuildError.NoOutputs
  else if 3 < st.outputs.length then Except.error BuildError.TooManyRecipients
  else if 2 < recipientCount st then Except.error BuildError.TooManyRecipients
  else if totalInput st < totalOutput st + st.fee then
    Except.error BuildError.InsufficientFunds
  else if (st.inputs.map BuilderInput.outpoint).Nodup then
    Except.ok ⟨st.inputs, st.outputs, st.fee, st.lockTime⟩
  else Except.error BuildError.DuplicateOutpoint

/-- C2: `addChangeOutput` computes `change = Σinputs − Σoutputs − fee` and
appends exactly that amount when it clears the dust threshold (in the concrete
scenario — inputs 100,000,000, one recipient output 50,000,000, fee 3,250 —
the appended change is exactly 49,996,750); when the computed change is below
the dust threshold no output is appended at all; and every output the call
appends carries at least the dust threshold, never a zero or negative amount. -/
theorem addChangeOutput_change_and_dust (st : BuilderState) (addr : String) :
    ((DUST_THRESHOLD : Int) ≤ (totalInput st : Int) - (totalOutput st : Int) - (st.fee : Int) →
      (addChangeOutput st addr).outputs = st.outputs ++
        [⟨((totalInput st : Int) - (totalOutput st : Int) - (st.fee : Int)).toNat,
          addr, OutputKind.change⟩]) ∧
    ((totalInput st : Int) - (totalOutput st : Int) - (st.fee : Int) < (DUST_THRESHOLD : Int) →
      addChangeOutput st addr = st) ∧
    (∀ o ∈ (addChangeOutput st addr).outputs,
      o ∈ st.outputs ∨ (DUST_THRESHOLD ≤ o.amount ∧ 0 < o.amount)) ∧
    (addChangeOutput
        ⟨[⟨⟨"prev", 0⟩, 100000000⟩], [⟨50000000, "recipient", OutputKind.recipient⟩], 3250, 0⟩
        addr).outputs =
      [⟨50000000, "recipient", OutputKind.recipient⟩, ⟨49996750, addr, OutputKind.change⟩] := by
  refine ⟨fun h => ?_, fun h => ?_, fun o ho => ?_, ?_⟩
  · simp only [addChangeOutput]
    rw [if_neg (not_lt.mpr h)]
  · rw [addChangeOutput]
    simp [h]
  · rw [addChangeOutput] at ho
    by_cases h : (totalInput st : Int) - (totalOutput st : Int) - (st.fee : Int) <
        (DUST_THRESHOLD : Int)
    · simp only [if_pos h] at ho
      exact Or.inl ho
    · simp only [if_neg h] at ho
      rcases List.mem_append.mp ho with hm | hm
      · exact Or.inl hm
      · push_neg at h
        have hd : DUST_THRESHOLD ≤
            ((totalInput st : Int) - (totalOutput st : Int) - (st.fee : Int)).toNat := by
          omega
        rcases List.mem_singleton.mp hm with rfl
        exact Or.inr ⟨hd, by simp [DUST_THRESHOLD] at hd ⊢; omega⟩
  · rw [addChangeOutput]
    norm_num [totalInput, totalOutput, DUST_THRESHOLD]
    decide

/-- Witness for C2: on the concrete builder state of the spec's dust-omission
vector the change output of 49,996,750 sompi is appended, and on a state whose
change (100 sompi) is under the dust threshold nothing is appended. -/
theorem addChangeOutput_change_and_dust_witness :
    (addChangeOutput
        ⟨[⟨⟨"prev", 0⟩, 100000000⟩], [⟨50000000, "recipient", OutputKind.recipient⟩], 3250, 0⟩
        "change").outputs =
      [⟨50000000, "recipient", OutputKind.recipient⟩, ⟨49996750, "change", OutputKind.change⟩] ∧
    addChangeOutput ⟨[⟨⟨"prev", 0⟩, 50003350⟩],
        [⟨50000000, "recipient", OutputKind.recipient⟩], 3250, 0⟩ "change" =
      ⟨[⟨⟨"prev", 0⟩, 50003350⟩], [⟨50000000, "recipient", OutputKind.recipient⟩], 3250, 0⟩ := by
  constructor
  · exact (addChangeOutput_change_and_dust
      ⟨[⟨⟨"prev", 0⟩, 100000000⟩], [⟨50000000, "recipient", OutputKind.recipient⟩], 3250, 0⟩
      "change").2.2.2
  · exact (addChangeOutput_change_and_dust
      ⟨[⟨⟨"prev", 0⟩, 50003350⟩], [⟨50000000, "recipient", OutputKind.recipient⟩], 3250, 0⟩
      "change").2.1 (by norm_num [totalInput, totalOutput, DUST_THRESHOLD])

/-- C3: whenever `Σoutputs + fee` exceeds `Σinputs` (and the earlier structural
checks pass), `build()` fails with `InsufficientFunds`; and whenever `build()`
succeeds it returns the accumulated inputs and outputs unchanged — no amount is
clamped — with `Σoutputs + fee ≤ Σinputs`. -/
theorem build_insufficient_funds_no_clamp (st : BuilderState) :
    (st.inputs ≠ [] → st.outputs ≠ [] → st.outputs.length ≤ 3 → recipientCount st ≤ 2 →
      totalInput st < totalOutput st + st.fee →
      build st = Except.error BuildError.InsufficientFunds) ∧
    (∀ tx, build st = Except.ok tx →
      tx.inputs = st.inputs ∧ tx.outputs = st.outputs ∧
        totalOutput st + st.fee ≤ totalInput st) := by
  constructor
  · intro h1 h2 h3 h4 h5
    rw [build]
    rw [if_neg (by simpa using h1), if_neg (by simpa using h2),
      if_neg (by omega), if_neg (by omega), if_pos h5]
  · intro tx htx
    rw [build] at htx
    split_ifs at htx with h1 h2 h3 h4 h5 h6
    all_goals injection htx with h
    subst h
    exact ⟨rfl, rfl, by omega⟩

/-- Witness for C3: a one-input, one-output state that overspends
(50 + fee 60 > 100 sompi... actually 100 < 90 + 60) fails with
`InsufficientFunds`, and a funded state builds with its outputs unchanged. -/
theorem build_insufficient_funds_no_clamp_witness :
    build ⟨[⟨⟨"prev", 0⟩, 100⟩], [⟨90, "recipient", OutputKind.recipient⟩], 60, 0⟩ =
      Except.error BuildError.InsufficientFunds ∧
    ∀ tx, build ⟨[⟨⟨"prev", 0⟩, 100⟩], [⟨90, "recipient", OutputKind.recipient⟩], 10, 0⟩ =
        Except.ok tx →
      tx.outputs = [⟨90, "recipient", OutputKind.recipient⟩] := by
  constructor
  · exact (build_insufficient_funds_no_clamp
        ⟨[⟨⟨"prev", 0⟩, 100⟩], [⟨90, "recipient", OutputKind.recipient⟩], 60, 0⟩).1
      (by decide) (by decide) (by decide) (by decide)
      (by norm_num [totalInput, totalOutput])
  · intro tx htx
    exact ((build_insufficient_funds_no_clamp
        ⟨[⟨⟨"prev", 0⟩, 100⟩], [⟨90, "recipient", OutputKind.recipient⟩], 10, 0⟩).2
      tx htx).2.1

/-- C4: on any builder state that already holds 2 recipient outputs, a further
`addOutput` call fails with `TooManyRecipients`; the model has no option that
could lift the limit, so the bound holds for every state and every requested
address and amount. -/
theorem addOutput_too_many_recipients (st : BuilderState) (address : String) (amount : Nat)
    (h : recipientCount st = 2) :
    addOutput st address amount = Except.error BuildError.TooManyRecipients := by
  rw [addOutput]
  rw [if_pos (by omega)]

/-- Witness for C4: a third `addOutput` on a builder already holding two
recipient outputs fails with `TooManyRecipients`. -/
theorem addOutput_too_many_recipients_witness :
    addOutput ⟨[⟨⟨"prev", 0⟩, 300000000⟩],
        [⟨100000000, "recipient1", OutputKind.recipient⟩,
         ⟨50000000, "recipient2", OutputKind.recipient⟩], 3250, 0⟩
      "recipient3" 25000000 = Except.error BuildError.TooManyRecipients :=
  addOutput_too_many_recipients
    ⟨[⟨⟨"prev", 0⟩, 300000000⟩],
      [⟨100000000, "recipient1", OutputKind.recipient⟩,
       ⟨50000000, "recipient2", OutputKind.recipient⟩], 3250, 0⟩
    "recipient3" 25000000 (by decide)

/-! ## BlockchainService result discipline (src/unnamed/part_000, BlockchainService) -/

/-- An error object carried by an RPC response (`ErrorResponse`). -/
structure ErrorMessage where
  message : String
deriving DecidableEq

/-- The caller-visible result type (`BaseResult<T>` of README / spec §7):
`ok` flag, optional payload, optional error string. -/
structure BaseResult (T : Type) where
  ok : Bool
  result : Option T
  error : Option String
deriving DecidableEq

/-- Modelled from the spec: the `buildResult` helper
(src/helpers/build-result.helper.ts is not in the provided tree).  Per the
README's error-handling contract a response error yields `ok = false` with the
error message and no payload, otherwise `ok = true` with the payload. -/
def buildResult {T : Type} (err : Option ErrorMessage) (res : T) : BaseResult T :=
  match err with
  | some e => ⟨false, none, some e.message⟩
  | none => ⟨true, some res, none⟩

/-- A hexadecimal digit, as `HoosatUtils.isValidHash` accepts them. -/
def isHexDigit (c : Char) : Bool :=
  ('0' ≤ c && c ≤ '9') || ('a' ≤ c && c ≤ 'f') || ('A' ≤ c && c ≤ 'F')

/-- Modelled from the spec: `HoosatUtils.isValidHash(hash, length)` (the utils
source is not in the provided tree; the README documents it as hash-format
validation): exactly `len` hex characters. -/
def isValidHash (hash : List Char) (len : Nat) : Bool :=
  hash.length = len && hash.all isHexDigit

/-- `HoosatUtils.isValidBlockHash`: a 64-character hex string. -/
def isValidBlockHash (hash : List Char) : Bool := isValidHash hash 64

/-- `HoosatUtils.isValidTransactionId`: a 64-character hex string. -/
def isValidTransactionId (txId : List Char) : Bool := isValidHash txId 64

/-- What one `_request` round trip to the node can produce: a reply carrying a
payload and an optional response error, or a transport failure (a rejected
promise, surfaced as a caught exception). -/
inductive RpcOutcome (R : Type) where
  | reply (response : R) (err : Option ErrorMessage)
  | failure (msg : String)

/-- `BlockchainService.getBlock` (part_000:34-51), with the network modelled as
the outcome the single `_request` call would produce.  The returned flag records
whether that request was issued.  An invalid block hash throws before the
request; the surrounding try/catch converts the throw into an error result. -/
def getBlock {B : Type} [Inhabited B] (net : RpcOutcome B) (blockHash : List Char) :
    BaseResult B × Bool :=
  if isValidBlockHash blockHash then
    match net with
    | RpcOutcome.reply b err => (buildResult err b, true)
    | RpcOutcome.failure e =>
        (buildResult (some ⟨"Failed to get block: " ++ e⟩) default, true)
  else
    (buildResult (some ⟨"Failed to get block: Error: Invalid block hash"⟩) default, false)

/-- `BlockchainService.getBlockByTransactionId` (part_000:61-81), modelled like
`getBlock`: the transaction id is validated before the request is issued. -/
def getBlockByTransactionId {B : Type} [Inhabited B] (net : RpcOutcome B)
    (transactionId : List Char) : BaseResult B × Bool :=
  if isValidTransactionId transactionId then
    match net with
    | RpcOutcome.reply b err => (buildResult err b, true)
    | RpcOutcome.failure e =>
        (buildResult (some ⟨"Failed to get block by transaction ID: " ++ e⟩) default, true)
  else
    (buildResult (some ⟨"Failed to get block by transaction ID: Error: Invalid transaction ID"⟩)
      default, false)

/-- A result is unambiguous when it is either a success carrying a payload and
no error, or a failure carrying an error and no payload. -/
def Unambiguous {T : Type} (r : BaseResult T) : Prop :=
  (r.ok = true ∧ r.result.isSome ∧ r.error = none) ∨
    (r.ok = false ∧ r.result = none ∧ r.error.isSome)

/-- C9: the blockchain-service operations always return a `BaseResult` that is
either a success carrying the payload or a failure carrying an error reason —
never a partial state (the model is a total function, so no exception escapes) —
and a malformed block hash or transaction id produces the failure result with
no network request issued. -/
theorem blockchainService_result_discipline {B : Type} [Inhabited B]
    (net : RpcOutcome B) (hash txId : List Char) :
    Unambiguous (getBlock net hash).1 ∧
    Unambiguous (getBlockByTransactionId net txId).1 ∧
    (isValidBlockHash hash = false →
      (getBlock net hash).2 = false ∧ (getBlock net hash).1.ok = false ∧
        (getBlock net hash).1.error.isSome) ∧
    (isValidTransactionId txId = false →
      (getBlockByTransactionId net txId).2 = false ∧
        (getBlockByTransactionId net txId).1.ok = false ∧
        (getBlockByTransactionId net txId).1.error.isSome) := by
  refine ⟨?_, ?_, fun hv => ?_, fun hv => ?_⟩
  · rw [getBlock.eq_def]
    split
    · cases net with
      | reply b err => cases err <;> simp [buildResult, Unambiguous]
      | failure e => simp [buildResult, Unambiguous]
    · simp [buildResult, Unambiguous]
  · rw [getBlockByTransactionId.eq_def]
    split
    · cases net with
      | reply b err => cases err <;> simp [buildResult, Unambiguous]
      | failure e => simp [buildResult, Unambiguous]
    · simp [buildResult, Unambiguous]
  · rw [getBlock.eq_def]
    simp [hv, buildResult]
  · rw [getBlockByTransactionId.eq_def]
    simp [hv, buildResult]

/-- Witness for C9: a malformed one-character block hash and transaction id
each yield a synchronous failure result with no network request, against a
network oracle that would have replied successfully. -/
theorem blockchainService_result_discipline_witness :
    (getBlock (RpcOutcome.reply 0 none) ['x']).2 = false ∧
    (getBlock (RpcOutcome.reply 0 none) ['x']).1.ok = false ∧
    (getBlockByTransactionId (RpcOutcome.reply 0 none) ['x']).2 = false ∧
    (getBlockByTransactionId (RpcOutcome.reply 0 none) ['x']).1.ok = false ∧
    Unambiguous (getBlock (RpcOutcome.reply (0 : Nat) none) ['x']).1 := by
  have h := blockchainService_result_discipline (B := Nat)
    (RpcOutcome.reply 0 none) ['x'] ['x']
  exact ⟨(h.2.2.1 (by decide)).1, (h.2.2.1 (by decide)).2.1,
    (h.2.2.2 (by decide)).1, (h.2.2.2 (by decide)).2.1, h.1⟩

/-! ## Transaction identity serialization (spec §4.4; the TransactionCodec
source is not in the provided tree, so it is modelled from the spec) -/

/-- A previous outpoint: the funding transaction's id hash and output index. -/
structure TxOutpoint where
  transactionId : Nat
  index : Nat
deriving DecidableEq

/-- `TransactionInput` of the data model (spec §3). -/
structure TxInput where
  previousOutpoint : TxOutpoint
  signatureScript : List Nat
  sequence : Nat
  sigOpCount : Nat
deriving DecidableEq

/-- `TransactionOutput` of the data model (spec §3). -/
structure TxOutput where
  amount : Nat
  scriptPublicKey : List Nat
deriving DecidableEq

/-- `Transaction` of the data model (spec §3). -/
structure Transaction where
  version : Nat
  inputs : List TxInput
  outputs : List TxOutput
  lockTime : Nat
  subnetworkId : Nat
  gas : Nat
  payload : List Nat
deriving DecidableEq

/-- Identity serialization of one input (spec §4.4: "previous outpoint +
sequence, but NOT the signature script"). -/
def serInputForId (i : TxInput) : List Nat :=
  [i.previousOutpoint.transactionId, i.previousOutpoint.index, i.sequence]

/-- Serialization of one output: amount, then the length-prefixed script. -/
def serOutput (o : TxOutput) : List Nat :=
  [o.amount, o.scriptPublicKey.length] ++ o.scriptPublicKey

/-- Modelled from the spec: the canonical identity serialization
(spec §4.4) — version, count-prefixed inputs (outpoint and sequence only),
count-prefixed outputs, lockTime, subnetworkId, gas, length-prefixed payload.
Each fixed-width field of the binary layout is modelled as one token. -/
def serializeForId (t : Transaction) : List Nat :=
  [t.version, t.inputs.length] ++ (t.inputs.map serInputForId).flatten
    ++ [t.outputs.length] ++ (t.outputs.map serOutput).flatten
    ++ [t.lockTime, t.subnetworkId, t.gas, t.payload.length] ++ t.payload

/-- Modelled from the spec: `transactionId = H(serializeForId(tx))` (spec §4.2)
for the collision-free hash primitive `H`; the identity is verified at the
hash-preimage level, where two ids coincide exactly when their serializations
do. -/
def transactionId (t : Transaction) : List Nat := serializeForId t

/-- The content an input contributes to the identity hash. -/
def inputIdView (i : TxInput) : Nat × Nat × Nat :=
  (i.previousOutpoint.transactionId, i.previousOutpoint.index, i.sequence)

/-- The exact content the identity hash covers (spec §4.4). -/
structure TxIdView where
  version : Nat
  inputs : List (Nat × Nat × Nat)
  outputs : List TxOutput
  lockTime : Nat
  subnetworkId : Nat
  gas : Nat
  payload : List Nat
deriving DecidableEq

/-- Projection of a transaction onto the content its identity hash covers. -/
def txIdView (t : Transaction) : TxIdView :=
  ⟨t.version, t.inputs.map inputIdView, t.outputs, t.lockTime, t.subnetworkId,
    t.gas, t.payload⟩

/-- Inverse of the input block of `serializeForId`: read `n` three-token
input records. -/
def parseInputs : Nat → List Nat → Option (List (Nat × Nat × Nat) × List Nat)
  | 0, rest => some ([], rest)
  | n + 1, a :: b :: c :: rest =>
      match parseInputs n rest with
      | some (l, r) => some ((a, b, c) :: l, r)
      | none => none
  | _ + 1, _ => none

/-- Inverse of the output block of `serializeForId`: read `n` records of an
amount followed by a length-prefixed script. -/
def parseOutputs : Nat → List Nat → Option (List TxOutput × List Nat)
  | 0, rest => some ([], rest)
  | n + 1, amt :: len :: rest =>
      match parseOutputs n (rest.drop len) with
      | some (l, r) => some (⟨amt, rest.take len⟩ :: l, r)
      | none => none
  | _ + 1, _ => none

/-- Inverse of `serializeForId`, recovering the identity-covered content. -/
def parseForId (s : List Nat) : Option TxIdView :=
  match s with
  | v :: nIns :: rest =>
      match parseInputs nIns rest with
      | some (ins, rest1) =>
          match rest1 with
          | nOuts :: rest2 =>
              match parseOutputs nOuts rest2 with
              | some (outs, rest3) =>
                  match rest3 with
                  | lt :: sn :: g :: pl :: rest4 =>
                      if rest4.length = pl then some ⟨v, ins, outs, lt, sn, g, rest4⟩
                      else none
                  | _ => none
              | none => none
          | _ => none
      | none => none
  | _ => none

theorem parseInputs_ser (l : List TxInput) (rest : List Nat) :
    parseInputs l.length ((l.map serInputForId).flatten ++ rest) =
      some (l.map inputIdView, rest) := by
  induction l with
  | nil => rfl
  | cons i l ih =>
      simp only [List.map_cons, List.flatten_cons, List.length_cons, serInputForId,
        List.cons_append, List.append_eq, List.nil_append, List.append_assoc, parseInputs,
        inputIdView]
      rw [ih]

theorem parseOutputs_ser (l : List TxOutput) (rest : List Nat) :
    parseOutputs l.length ((l.map serOutput).flatten ++ rest) = some (l, rest) := by
  induction l with
  | nil => rfl
  | cons o l ih =>
      simp only [List.map_cons, List.flatten_cons, List.length_cons, serOutput,
        List.cons_append, List.append_eq, List.nil_append, List.append_assoc, parseOutputs]
      rw [List.drop_left' rfl, List.take_left' rfl, ih]

theorem parseForId_serializeForId (t : Transaction) :
    parseForId (serializeForId t) = some (txIdView t) := by
  have h : serializeForId t =
      t.version :: t.inputs.length :: ((t.inputs.map serInputForId).flatten ++
        (t.outputs.length :: ((t.outputs.map serOutput).flatten ++
          (t.lockTime :: t.subnetworkId :: t.gas :: t.payload.length :: t.payload)))) := by
    simp [serializeForId]
  rw [h]
  simp only [parseForId, parseInputs_ser, parseOutputs_ser]
  simp [txIdView]

/-- Two transactions differ at most in their inputs' signature scripts: all
other transaction fields agree, and the inputs agree pointwise on outpoint,
sequence and sigOpCount. -/
def SameExceptSigScripts (t t' : Transaction) : Prop :=
  t.version = t'.version ∧ t.outputs = t'.outputs ∧ t.lockTime = t'.lockTime ∧
    t.subnetworkId = t'.subnetworkId ∧ t.gas = t'.gas ∧ t.payload = t'.payload ∧
    t.inputs.length = t'.inputs.length ∧
    ∀ p ∈ t.inputs.zip t'.inputs,
      p.1.previousOutpoint = p.2.previousOutpoint ∧ p.1.sequence = p.2.sequence ∧
        p.1.sigOpCount = p.2.sigOpCount

theorem map_inputIdView_eq {l l' : List TxInput} (hlen : l.length = l'.length)
    (h : ∀ p ∈ l.zip l',
      p.1.previousOutpoint = p.2.previousOutpoint ∧ p.1.sequence = p.2.sequence ∧
        p.1.sigOpCount = p.2.sigOpCount) :
    l.map inputIdView = l'.map inputIdView := by
  induction l generalizing l' with
  | nil => cases l' with
      | nil => rfl
      | cons i l' => simp at hlen
  | cons i l ih =>
      cases l' with
      | nil => simp at hlen
      | cons i' l' =>
          have hh := h (i, i') (by simp [List.zip_cons_cons])
          have hp : i.previousOutpoint = i'.previousOutpoint := hh.1
          have hs : i.sequence = i'.sequence := hh.2.1
          have ht : ∀ p ∈ l.zip l',
              p.1.previousOutpoint = p.2.previousOutpoint ∧ p.1.sequence = p.2.sequence ∧
                p.1.sigOpCount = p.2.sigOpCount := by
            intro p hq
            exact h p (by simp [List.zip_cons_cons, hq])
          simp only [List.map_cons, inputIdView, hp, hs,
            ih (by simpa using hlen) ht]

/-- C5 counterexample: two transactions whose input lists differ (the single
input's `sigOpCount` is 1 versus 2) yet whose transaction ids coincide, because
the identity serialization of spec §4.4 covers only the outpoint and sequence
of each input. -/
theorem transactionId_sigOpCount_collision :
    transactionId ⟨0, [⟨⟨7, 0⟩, [], 0, 1⟩], [⟨50, [1]⟩], 0, 0, 0, []⟩ =
        transactionId ⟨0, [⟨⟨7, 0⟩, [], 0, 2⟩], [⟨50, [1]⟩], 0, 0, 0, []⟩ ∧
      (⟨0, [⟨⟨7, 0⟩, [], 0, 1⟩], [⟨50, [1]⟩], 0, 0, 0, []⟩ : Transaction).inputs ≠
        (⟨0, [⟨⟨7, 0⟩, [], 0, 2⟩], [⟨50, [1]⟩], 0, 0, 0, []⟩ : Transaction).inputs := by
  exact ⟨rfl, by decide⟩

/-- C5 (amended): transactions that differ only in their inputs' signature
scripts (or sigOpCounts) share the same `transactionId`, and two transactions
share a `transactionId` exactly when the identity-covered content agrees — so
any change to version, lockTime, the output list, the payload, subnetworkId,
gas, or the inputs' previous outpoints or sequences changes the id, while
signature scripts and sigOpCount (which spec §4.4 excludes) never do. -/
theorem transactionId_stability (t t' : Transaction)
    (h : SameExceptSigScripts t t') :
    transactionId t = transactionId t' ∧
      ∀ u u' : Transaction, transactionId u = transactionId u' →
        u.version = u'.version ∧ u.lockTime = u'.lockTime ∧ u.outputs = u'.outputs ∧
          u.payload = u'.payload ∧ u.subnetworkId = u'.subnetworkId ∧ u.gas = u'.gas ∧
          u.inputs.map inputIdView = u'.inputs.map inputIdView := by
  constructor
  · obtain ⟨h1, h2, h3, h4, h5, h6, h7, h8⟩ := h
    have hser : t.inputs.map serInputForId = t'.inputs.map serInputForId := by
      have hmm : ∀ l : List TxInput, l.map serInputForId =
          (l.map inputIdView).map (fun x => [x.1, x.2.1, x.2.2]) := by
        intro l
        rw [List.map_map]
        rfl
      rw [hmm, hmm, map_inputIdView_eq h7 h8]
    rw [transactionId, transactionId, serializeForId, serializeForId,
      h1, h2, h3, h4, h5, h6, h7, hser]
  · intro u u' hid
    have hv : parseForId (serializeForId u) = parseForId (serializeForId u') := by
      rw [show serializeForId u = serializeForId u' from hid]
    rw [parseForId_serializeForId, parseForId_serializeForId] at hv
    have hw := Option.some.inj hv
    injection hw with e1 e2 e3 e4 e5 e6 e7
    exact ⟨e1, e4, e3, e7, e5, e6, e2⟩

/-- Witness for C5 (amended): a transaction with and without its signature
script populated has the same id, and equal ids force equal versions. -/
theorem transactionId_stability_witness :
    transactionId ⟨1, [⟨⟨9, 1⟩, [], 5, 1⟩], [⟨50, [2, 3]⟩], 4, 0, 0, [7]⟩ =
        transactionId ⟨1, [⟨⟨9, 1⟩, [8, 8], 5, 1⟩], [⟨50, [2, 3]⟩], 4, 0, 0, [7]⟩ ∧
      (⟨1, [⟨⟨9, 1⟩, [], 5, 1⟩], [⟨50, [2, 3]⟩], 4, 0, 0, [7]⟩ : Transaction).version =
        (⟨1, [⟨⟨9, 1⟩, [8, 8], 5, 1⟩], [⟨50, [2, 3]⟩], 4, 0, 0, [7]⟩ : Transaction).version := by
  have h := transactionId_stability
    ⟨1, [⟨⟨9, 1⟩, [], 5, 1⟩], [⟨50, [2, 3]⟩], 4, 0, 0, [7]⟩
    ⟨1, [⟨⟨9, 1⟩, [8, 8], 5, 1⟩], [⟨50, [2, 3]⟩], 4, 0, 0, [7]⟩
    ⟨rfl, rfl, rfl, rfl, rfl, rfl, rfl, by decide⟩
  exact ⟨h.1, (h.2 _ _ h.1).1⟩

/-! ## Address codec (spec §4.1, §6; the AddressCodec source is not in the
provided tree, so it is modelled from the spec: address text is
`<network-prefix>:<version-byte><bech-style-encoded payload><checksum>`, with
the 8-bit bytes of version byte plus payload regrouped into 5-bit symbols) -/

/-- The eight bits of one byte, most significant first. -/
def byteToBits (b : Nat) : List Bool :=
  [b.testBit 7, b.testBit 6, b.testBit 5, b.testBit 4,
   b.testBit 3, b.testBit 2, b.testBit 1, b.testBit 0]

/-- Big-endian value of a bit string. -/
def bitsToNat (bits : List Bool) : Nat :=
  bits.foldl (fun acc bit => 2 * acc + (if bit then 1 else 0)) 0

/-- Bit string of a byte string. -/
def bytesToBits (bs : List Nat) : List Bool := (bs.map byteToBits).flatten

/-- Regroup a bit string into bytes, dropping a trailing partial group. -/
def bitsToBytes : List Bool → List Nat
  | b7 :: b6 :: b5 :: b4 :: b3 :: b2 :: b1 :: b0 :: rest =>
      bitsToNat [b7, b6, b5, b4, b3, b2, b1, b0] :: bitsToBytes rest
  | _ => []

/-- The five bits of one 5-bit symbol, most significant first. -/
def symToBits (s : Nat) : List Bool :=
  [s.testBit 4, s.testBit 3, s.testBit 2, s.testBit 1, s.testBit 0]

/-- Regroup a bit string into 5-bit symbols, dropping a trailing partial group. -/
def bitsToSyms : List Bool → List Nat
  | b4 :: b3 :: b2 :: b1 :: b0 :: rest =>
      bitsToNat [b4, b3, b2, b1, b0] :: bitsToSyms rest
  | _ => []

/-- Bit string of a symbol string. -/
def symsToBits (syms : List Nat) : List Bool := (syms.map symToBits).flatten

/-- Zero-pad a bit string up to a multiple of five bits. -/
def padBits (bits : List Bool) : List Bool :=
  bits ++ List.replicate ((5 - bits.length % 5) % 5) false

/-- 8-bit bytes to 5-bit symbols (the "bech-style" regrouping of spec §6). -/
def bytesToSyms (bs : List Nat) : List Nat := bitsToSyms (padBits (bytesToBits bs))

/-- 5-bit symbols back to 8-bit bytes, dropping the padding bits. -/
def symsToBytes (syms : List Nat) : List Nat := bitsToBytes (symsToBits syms)

set_option maxRecDepth 4000 in
theorem bitsToNat_byteToBits : ∀ b : Nat, b < 256 → bitsToNat (byteToBits b) = b := by
  decide

theorem symToBits_bitsToNat :
    ∀ a b c d e : Bool, symToBits (bitsToNat [a, b, c, d, e]) = [a, b, c, d, e] := by
  decide

theorem bitsToNat_lt_32 : ∀ a b c d e : Bool, bitsToNat [a, b, c, d, e] < 32 := by
  decide

theorem symsToBits_cons (s : Nat) (l : List Nat) :
    symsToBits (s :: l) = symToBits s ++ symsToBits l := by
  simp [symsToBits]

theorem symsToBits_bitsToSyms :
    ∀ L : List Bool, L.length % 5 = 0 → symsToBits (bitsToSyms L) = L
  | [], _ => rfl
  | [a], h => absurd h (by simp)
  | [a, b], h => absurd h (by simp)
  | [a, b, c], h => absurd h (by simp)
  | [a, b, c, d], h => absurd h (by simp)
  | a :: b :: c :: d :: e :: rest, h => by
      have hr : rest.length % 5 = 0 := by
        simp only [List.length_cons] at h
        omega
      rw [bitsToSyms, symsToBits_cons, symToBits_bitsToNat a b c d e,
        symsToBits_bitsToSyms rest hr]
      rfl

theorem bitsToSyms_lt : ∀ L : List Bool, ∀ s ∈ bitsToSyms L, s < 32
  | [] => by simp [bitsToSyms]
  | [a] => by simp [bitsToSyms]
  | [a, b] => by simp [bitsToSyms]
  | [a, b, c] => by simp [bitsToSyms]
  | [a, b, c, d] => by simp [bitsToSyms]
  | a :: b :: c :: d :: e :: rest => by
      intro s hs
      rw [bitsToSyms] at hs
      rcases List.mem_cons.mp hs with rfl | hs
      · exact bitsToNat_lt_32 a b c d e
      · exact bitsToSyms_lt rest s hs

theorem bitsToSyms_length_le : ∀ L : List Bool, (bitsToSyms L).length ≤ L.length
  | [] => by simp [bitsToSyms]
  | [a] => by simp [bitsToSyms]
  | [a, b] => by simp [bitsToSyms]
  | [a, b, c] => by simp [bitsToSyms]
  | [a, b, c, d] => by simp [bitsToSyms]
  | a :: b :: c :: d :: e :: rest => by
      rw [bitsToSyms]
      have := bitsToSyms_length_le rest
      simp only [List.length_cons]
      omega

theorem bitsToBytes_short (L : List Bool) (h : L.length < 8) : bitsToBytes L = [] := by
  match L, h with
  | [], _ => rfl
  | [a], _ => rfl
  | [a, b], _ => rfl
  | [a, b, c], _ => rfl
  | [a, b, c, d], _ => rfl
  | [a, b, c, d, e], _ => rfl
  | [a, b, c, d, e, f], _ => rfl
  | [a, b, c, d, e, f, g], _ => rfl
  | a :: b :: c :: d :: e :: f :: g :: h8 :: rest, h => exact absurd h (by simp)

theorem bitsToBytes_bytesToBits_append :
    ∀ bs : List Nat, (∀ b ∈ bs, b < 256) → ∀ tail : List Bool, tail.length < 8 →
      bitsToBytes (bytesToBits bs ++ tail) = bs := by
  intro bs
  induction bs with
  | nil =>
      intro _ tail htail
      simp only [bytesToBits, List.map_nil, List.flatten_nil, List.nil_append]
      exact bitsToBytes_short tail htail
  | cons b bs ih =>
      intro hb tail htail
      have hb0 : b < 256 := hb b (List.mem_cons_self b bs)
      have hbs : ∀ x ∈ bs, x < 256 := fun x hx => hb x (List.mem_cons_of_mem b hx)
      simp only [bytesToBits, List.map_cons, List.flatten_cons, byteToBits,
        List.cons_append, List.append_assoc]
      rw [bitsToBytes]
      rw [show bitsToNat [b.testBit 7, b.testBit 6, b.testBit 5, b.testBit 4,
          b.testBit 3, b.testBit 2, b.testBit 1, b.testBit 0] = b from
        bitsToNat_byteToBits b hb0]
      have hrec := ih hbs tail htail
      simp only [bytesToBits] at hrec
      rw [List.nil_append, hrec]

theorem padBits_length (L : List Bool) : (padBits L).length % 5 = 0 := by
  simp only [padBits, List.length_append, List.length_replicate]
  omega

theorem bytesToBits_length (bs : List Nat) : (bytesToBits bs).length = 8 * bs.length := by
  induction bs with
  | nil => simp [bytesToBits]
  | cons b bs ih =>
      have h : ((List.map byteToBits bs).flatten).length = 8 * bs.length := by
        simpa [bytesToBits] using ih
      simp only [bytesToBits, List.map_cons, List.flatten_cons, List.length_append,
        byteToBits, List.length_cons, List.length_nil]
      omega

theorem symsToBytes_bytesToSyms (bs : List Nat) (h : ∀ b ∈ bs, b < 256) :
    symsToBytes (bytesToSyms bs) = bs := by
  rw [bytesToSyms, symsToBytes, symsToBits_bitsToSyms _ (padBits_length _), padBits]
  exact bitsToBytes_bytesToBits_append bs h _ (by simp only [List.length_replicate]; omega)

theorem bytesToSyms_lt (bs : List Nat) : ∀ s ∈ bytesToSyms bs, s < 32 :=
  bitsToSyms_lt _

theorem bytesToSyms_length_le (bs : List Nat) :
    (bytesToSyms bs).length ≤ 8 * bs.length + 4 := by
  have h1 := bitsToSyms_length_le (padBits (bytesToBits bs))
  have h2 : (padBits (bytesToBits bs)).length ≤ 8 * bs.length + 4 := by
    simp only [padBits, List.length_append, List.length_replicate, bytesToBits_length]
    omega
  rw [bytesToSyms]
  omega

/-- The bech-style 32-character alphabet used for the encoded symbols. -/
def CHARSET : List Char :=
  ['q', 'p', 'z', 'r', 'y', '9', 'x', '8', 'g', 'f', '2', 't', 'v', 'd', 'w', '0',
   's', '3', 'j', 'n', '5', '4', 'k', 'h', 'c', 'e', '6', 'm', 'u', 'a', '7', 'l']

/-- Character for a 5-bit symbol. -/
def charOfSym (s : Nat) : Char := CHARSET.getD s ' '

/-- Scan the alphabet for a character, returning its symbol value. -/
def symLookup (c : Char) : List Char → Nat → Option Nat
  | [], _ => none
  | d :: ds, k => if d = c then some k else symLookup c ds (k + 1)

/-- Symbol value of a character, `none` outside the alphabet. -/
def symOfChar (c : Char) : Option Nat := symLookup c CHARSET 0

theorem symLookup_sound {c : Char} {s : Nat} :
    ∀ (l : List Char) (k : Nat), symLookup c l k = some s →
      k ≤ s ∧ s - k < l.length ∧ l.getD (s - k) ' ' = c
  | [], k, h => by simp [symLookup] at h
  | d :: ds, k, h => by
      rw [symLookup] at h
      by_cases hd : d = c
      · rw [if_pos hd] at h
        cases Option.some.inj h
        simp [hd]
      · rw [if_neg hd] at h
        obtain ⟨h1, h2, h3⟩ := symLookup_sound ds (k + 1) h
        refine ⟨by omega, by simp only [List.length_cons]; omega, ?_⟩
        have hsk : s - k = (s - (k + 1)) + 1 := by omega
        rw [hsk]
        simpa using h3

theorem symOfChar_sound {c : Char} {s : Nat} (h : symOfChar c = some s) :
    s < 32 ∧ charOfSym s = c := by
  obtain ⟨_, h2, h3⟩ := symLookup_sound CHARSET 0 h
  simp only [Nat.sub_zero] at h2 h3
  exact ⟨by simpa [CHARSET] using h2, h3⟩

theorem symOfChar_charOfSym : ∀ s : Nat, s < 32 → symOfChar (charOfSym s) = some s := by
  decide

theorem charOfSym_mem_charset : ∀ s : Nat, s < 32 → charOfSym s ∈ CHARSET := by
  decide

theorem colon_not_mem_charset : (':' ∈ CHARSET) = False := by
  decide

/-- Modulus of the position-weighted checksum, a prime larger than any weight
that can occur in an address. -/
def CHECKSUM_MOD : Nat := 1021

/-- Position-weighted sum of the data symbols, starting at weight `k`. -/
def wsum : Nat → List Nat → Nat
  | _, [] => 0
  | k, d :: ds => k * d + wsum (k + 1) ds

/-- Modelled from the spec: the address checksum over the data symbols.  Spec
§4.1 mandates that the checksum detect every single-character typo and §9 leaves
the exact reference algorithm open, so a position-weighted sum modulo a prime —
which provably detects every single-symbol change — stands in for it. -/
def checksum (data : List Nat) : Nat := wsum 1 data % CHECKSUM_MOD

/-- The two 5-bit symbols encoding the checksum value. -/
def checksumSyms (data : List Nat) : List Nat := [checksum data / 32, checksum data % 32]

/-- The two ledger networks (spec §3). -/
inductive Network where
  | mainnet
  | testnet
deriving DecidableEq

/-- The human-readable network part of an address. -/
def hrpOf : Network → List Char
  | Network.mainnet => ['h', 'o', 'o', 's', 'a', 't']
  | Network.testnet => ['h', 'o', 'o', 's', 'a', 't', 't', 'e', 's', 't']

/-- The recognised version bytes: Schnorr key 0x00, ECDSA key 0x01,
script hash 0x08 (README `getAddressVersion`). -/
def VERSIONS : List Nat := [0, 1, 8]

/-- Modelled from the spec: `encode(payload, version, network) → address text`
(spec §4.1, §6): network part, colon, then the 5-bit symbols of the version
byte plus payload followed by the checksum symbols, all in the alphabet. -/
def encodeAddress (version : Nat) (network : Network) (payload : List Nat) : List Char :=
  hrpOf network ++ [':'] ++
    ((bytesToSyms (version :: payload) ++ checksumSyms (bytesToSyms (version :: payload))).map
      charOfSym)

/-- Split an address at its first colon. -/
def splitColon : List Char → Option (List Char × List Char)
  | [] => none
  | c :: cs =>
      if c = ':' then some ([], cs)
      else
        match splitColon cs with
        | some (p, r) => some (c :: p, r)
        | none => none

/-- Recognise the network part. -/
def networkOfHrp (p : List Char) : Option Network :=
  if p = hrpOf Network.mainnet then some Network.mainnet
  else if p = hrpOf Network.testnet then some Network.testnet
  else none

/-- Map every character back to its symbol, failing on any foreign character. -/
def symsOfChars : List Char → Option (List Nat)
  | [] => some []
  | c :: cs =>
      match symOfChar c, symsOfChars cs with
      | some s, some ss => some (s :: ss)
      | _, _ => none

/-- Modelled from the spec: `decode(text)` (spec §4.1), failing on an unknown
network part, a foreign character, a checksum mismatch, or an unrecognised
version byte. -/
def decodeAddress (text : List Char) : Option (Nat × Network × List Nat) :=
  match splitColon text with
  | none => none
  | some (p, rest) =>
      match networkOfHrp p with
      | none => none
      | some network =>
          match symsOfChars rest with
          | none => none
          | some syms =>
              if syms.length < 2 then none
              else if syms.drop (syms.length - 2) = checksumSyms (syms.take (syms.length - 2))
              then
                match symsToBytes (syms.take (syms.length - 2)) with
                | [] => none
                | version :: payload =>
                    if version ∈ VERSIONS then some (version, network, payload) else none
              else none

theorem splitColon_append :
    ∀ (p : List Char), (∀ c ∈ p, c ≠ ':') → ∀ r : List Char,
      splitColon (p ++ ':' :: r) = some (p, r)
  | [], _, r => by simp [splitColon]
  | c :: cs, h, r => by
      have hc : c ≠ ':' := h c (List.mem_cons_self c cs)
      have ht : ∀ d ∈ cs, d ≠ ':' := fun d hd => h d (List.mem_cons_of_mem c hd)
      simp only [List.cons_append, splitColon, if_neg hc, List.append_eq,
        splitColon_append cs ht r]

theorem networkOfHrp_hrpOf : ∀ nw : Network, networkOfHrp (hrpOf nw) = some nw := by
  intro nw
  cases nw <;> decide

theorem hrp_no_colon : ∀ nw : Network, ∀ c ∈ hrpOf nw, c ≠ ':' := by
  intro nw
  cases nw <;> decide

theorem symsOfChars_map :
    ∀ l : List Nat, (∀ s ∈ l, s < 32) → symsOfChars (l.map charOfSym) = some l
  | [], _ => rfl
  | s :: l, h => by
      have hs : s < 32 := h s (List.mem_cons_self s l)
      have hl : ∀ x ∈ l, x < 32 := fun x hx => h x (List.mem_cons_of_mem s hx)
      simp only [List.map_cons, symsOfChars, symOfChar_charOfSym s hs,
        symsOfChars_map l hl]

theorem checksum_lt (data : List Nat) : checksum data < 1021 :=
  Nat.mod_lt _ (by decide)

theorem checksumSyms_lt (data : List Nat) : ∀ s ∈ checksumSyms data, s < 32 := by
  intro s hs
  have h := checksum_lt data
  rcases List.mem_cons.mp hs with rfl | hs
  · omega
  · rcases List.mem_singleton.mp hs with rfl
    omega

/-- C7: decoding an encoded address returns exactly the original version,
network and payload, for every recognised version byte and every 32-byte
payload. -/
theorem decodeAddress_encodeAddress (version : Nat) (network : Network)
    (payload : List Nat) (hv : version ∈ VERSIONS) (_hlen : payload.length = 32)
    (hbytes : ∀ b ∈ payload, b < 256) :
    decodeAddress (encodeAddress version network payload) =
      some (version, network, payload) := by
  have hdata : ∀ s ∈ bytesToSyms (version :: payload) ++
      checksumSyms (bytesToSyms (version :: payload)), s < 32 := by
    intro s hs
    rcases List.mem_append.mp hs with hs | hs
    · exact bytesToSyms_lt _ s hs
    · exact checksumSyms_lt _ s hs
  have hbody : ∀ c ∈ (bytesToSyms (version :: payload) ++
      checksumSyms (bytesToSyms (version :: payload))).map charOfSym, c ≠ ':' := by
    intro c hc
    obtain ⟨s, hs, rfl⟩ := List.mem_map.mp hc
    have := charOfSym_mem_charset s (hdata s hs)
    intro heq
    rw [heq] at this
    exact (colon_not_mem_charset ▸ this)
  rw [encodeAddress, List.append_assoc, List.cons_append, List.nil_append] at *
  rw [decodeAddress, splitColon_append (hrpOf network) (hrp_no_colon network) _]
  simp only [networkOfHrp_hrpOf, symsOfChars_map _ hdata]
  have hlen2 : (checksumSyms (bytesToSyms (version :: payload))).length = 2 := rfl
  have hle : ¬ (bytesToSyms (version :: payload) ++
      checksumSyms (bytesToSyms (version :: payload))).length < 2 := by
    simp only [List.length_append, hlen2]
    omega
  rw [if_neg hle]
  have htk : (bytesToSyms (version :: payload) ++
      checksumSyms (bytesToSyms (version :: payload))).length - 2 =
      (bytesToSyms (version :: payload)).length := by
    simp only [List.length_append, hlen2]
    omega
  rw [htk, List.take_left, List.drop_left, if_pos rfl]
  have hv256 : version < 256 := by
    have hv3 : version = 0 ∨ version = 1 ∨ version = 8 := by simpa [VERSIONS] using hv
    rcases hv3 with rfl | rfl | rfl <;> decide
  have hb : ∀ b ∈ version :: payload, b < 256 := by
    intro b hbm
    rcases List.mem_cons.mp hbm with rfl | hbm
    · exact hv256
    · exact hbytes b hbm
  rw [symsToBytes_bytesToSyms _ hb]
  simp [hv]

/-- Witness for C7: a concrete ECDSA-version mainnet address with a 32-byte
payload round-trips through encode and decode. -/
theorem decodeAddress_encodeAddress_witness :
    decodeAddress (encodeAddress 1 Network.mainnet (List.replicate 32 171)) =
      some (1, Network.mainnet, List.replicate 32 171) :=
  decodeAddress_encodeAddress 1 Network.mainnet (List.replicate 32 171)
    (by decide) (by simp) (by simp)

/-! ### Checksum sensitivity: list-surgery helper lemmas -/

theorem set_append_left {α : Type} :
    ∀ (l₁ l₂ : List α) (i : Nat) (c : α), i < l₁.length →
      (l₁ ++ l₂).set i c = l₁.set i c ++ l₂
  | [], _, i, c, h => by simp at h
  | a :: l₁, l₂, 0, c, _ => rfl
  | a :: l₁, l₂, i + 1, c, h => by
      simp only [List.cons_append, List.set_cons_succ]
      rw [set_append_left l₁ l₂ i c (by simpa using h)]

theorem set_append_right {α : Type} :
    ∀ (l₁ l₂ : List α) (i : Nat) (c : α), l₁.length ≤ i →
      (l₁ ++ l₂).set i c = l₁ ++ l₂.set (i - l₁.length) c
  | [], _, i, c, _ => by simp
  | a :: l₁, l₂, 0, c, h => by simp at h
  | a :: l₁, l₂, i + 1, c, h => by
      simp only [List.cons_append, List.set_cons_succ, List.length_cons]
      rw [set_append_right l₁ l₂ i c (by simpa using h)]
      simp [Nat.succ_sub_succ]

theorem getD_append_left {α : Type} :
    ∀ (l₁ l₂ : List α) (i : Nat) (d : α), i < l₁.length →
      (l₁ ++ l₂).getD i d = l₁.getD i d
  | [], _, i, d, h => by simp at h
  | a :: l₁, l₂, 0, d, _ => rfl
  | a :: l₁, l₂, i + 1, d, h =>
      getD_append_left l₁ l₂ i d (by simpa using h)

theorem getD_append_right {α : Type} :
    ∀ (l₁ l₂ : List α) (m : Nat) (d : α),
      (l₁ ++ l₂).getD (l₁.length + m) d = l₂.getD m d
  | [], _, m, d => by simp
  | a :: l₁, l₂, m, d => by
      have hidx : (a :: l₁).length + m = (l₁.length + m) + 1 := by
        simp only [List.length_cons]
        omega
      rw [List.cons_append, hidx, List.getD_cons_succ]
      exact getD_append_right l₁ l₂ m d

theorem getD_set_self {α : Type} :
    ∀ (l : List α) (i : Nat) (c d : α), i < l.length → (l.set i c).getD i d = c
  | [], i, c, d, h => by simp at h
  | a :: l, 0, c, d, _ => rfl
  | a :: l, i + 1, c, d, h =>
      getD_set_self l i c d (by simpa using h)

theorem mem_set_either {α : Type} :
    ∀ (l : List α) (i : Nat) (c : α), ∀ x ∈ l.set i c, x ∈ l ∨ x = c
  | [], _, _, x, hx => Or.inl hx
  | a :: l, 0, c, x, hx => by
      rcases List.mem_cons.mp hx with rfl | hx
      · exact Or.inr rfl
      · exact Or.inl (List.mem_cons_of_mem a hx)
  | a :: l, i + 1, c, x, hx => by
      rcases List.mem_cons.mp hx with rfl | hx
      · exact Or.inl (List.mem_cons_self x l)
      · rcases mem_set_either l i c x hx with hm | hm
        · exact Or.inl (List.mem_cons_of_mem a hm)
        · exact Or.inr hm

theorem mem_set_self {α : Type} :
    ∀ (l : List α) (i : Nat) (c : α), i < l.length → c ∈ l.set i c
  | [], i, c, h => by simp at h
  | a :: l, 0, c, _ => List.mem_cons_self c l
  | a :: l, i + 1, c, h =>
      List.mem_cons_of_mem a (mem_set_self l i c (by simpa using h))

theorem set_ne_of_ne {α : Type} (l : List α) (i : Nat) (c d : α) (hi : i < l.length)
    (hne : c ≠ l.getD i d) : l.set i c ≠ l := by
  intro he
  apply hne
  have h := getD_set_self l i c d hi
  rw [he] at h
  exact h.symm

theorem set_eq_take_cons_drop {α : Type} :
    ∀ (l : List α) (i : Nat) (c : α), i < l.length →
      l.set i c = l.take i ++ c :: l.drop (i + 1)
  | [], i, c, h => by simp at h
  | a :: l, 0, c, _ => rfl
  | a :: l, i + 1, c, h => by
      simp only [List.set_cons_succ, List.take_succ_cons, List.drop_succ_cons,
        List.cons_append]
      rw [set_eq_take_cons_drop l i c (by simpa using h)]

theorem mem_of_mem_take {α : Type} :
    ∀ (l : List α) (n : Nat), ∀ x ∈ l.take n, x ∈ l
  | [], n, x, hx => by simp at hx
  | a :: l, 0, x, hx => by simp at hx
  | a :: l, n + 1, x, hx => by
      rcases List.mem_cons.mp hx with rfl | hx
      · exact List.mem_cons_self x l
      · exact List.mem_cons_of_mem a (mem_of_mem_take l n x hx)

theorem getD_map_charOfSym :
    ∀ (l : List Nat) (j : Nat), j < l.length →
      (l.map charOfSym).getD j ' ' = charOfSym (l.getD j 0)
  | [], j, h => by simp at h
  | s :: l, 0, _ => rfl
  | s :: l, j + 1, h =>
      getD_map_charOfSym l j (by simpa using h)

theorem getD_mem {α : Type} :
    ∀ (l : List α) (i : Nat) (d : α), i < l.length → l.getD i d ∈ l
  | [], i, d, h => by simp at h
  | a :: l, 0, d, _ => List.mem_cons_self a l
  | a :: l, i + 1, d, h =>
      List.mem_cons_of_mem a (getD_mem l i d (by simpa using h))

theorem splitColon_none :
    ∀ l : List Char, (∀ c ∈ l, c ≠ ':') → splitColon l = none
  | [], _ => rfl
  | c :: cs, h => by
      have hc : c ≠ ':' := h c (List.mem_cons_self c cs)
      rw [splitColon, if_neg hc,
        splitColon_none cs (fun d hd => h d (List.mem_cons_of_mem c hd))]

theorem symOfChar_colon : symOfChar ':' = none := by decide

theorem symsOfChars_none_of_bad :
    ∀ l : List Char, ∀ c ∈ l, symOfChar c = none → symsOfChars l = none
  | [], c, hc, _ => by simp at hc
  | d :: l, c, hc, hbad => by
      rcases List.mem_cons.mp hc with rfl | hc
      · rw [symsOfChars, hbad]
      · rw [symsOfChars, symsOfChars_none_of_bad l c hc hbad]
        cases symOfChar d <;> rfl

theorem symsOfChars_map_set :
    ∀ (l : List Nat) (j : Nat) (c : Char) (s' : Nat), (∀ s ∈ l, s < 32) →
      symOfChar c = some s' → j < l.length →
      symsOfChars ((l.map charOfSym).set j c) = some (l.set j s')
  | [], j, c, s', _, _, hj => by simp at hj
  | s :: l, 0, c, s', hl, hc, _ => by
      rw [List.map_cons, List.set_cons_zero, symsOfChars, hc,
        symsOfChars_map l (fun x hx => hl x (List.mem_cons_of_mem s hx))]
      rfl
  | s :: l, j + 1, c, s', hl, hc, hj => by
      rw [List.map_cons, List.set_cons_succ, symsOfChars,
        symOfChar_charOfSym s (hl s (List.mem_cons_self s l)),
        symsOfChars_map_set l j c s' (fun x hx => hl x (List.mem_cons_of_mem s hx)) hc
          (by simpa using hj)]
      rfl

theorem networkOfHrp_set_ne (nw : Network) (i : Nat) (c : Char)
    (hi : i < (hrpOf nw).length) (hc : c ≠ (hrpOf nw).getD i ' ') :
    networkOfHrp ((hrpOf nw).set i c) = none := by
  have hown : (hrpOf nw).set i c ≠ hrpOf nw := set_ne_of_ne _ i c ' ' hi hc
  have hlen : ((hrpOf nw).set i c).length = (hrpOf nw).length := List.length_set _ _ _
  cases nw with
  | mainnet =>
      have hne2 : (hrpOf Network.mainnet).set i c ≠ hrpOf Network.testnet := by
        intro he
        have hl2 := congrArg List.length he
        rw [hlen] at hl2
        simp [hrpOf] at hl2
      rw [networkOfHrp, if_neg hown, if_neg hne2]
  | testnet =>
      have hne2 : (hrpOf Network.testnet).set i c ≠ hrpOf Network.mainnet := by
        intro he
        have hl2 := congrArg List.length he
        rw [hlen] at hl2
        simp [hrpOf] at hl2
      rw [networkOfHrp, if_neg hne2, if_neg hown]

theorem wsum_set :
    ∀ (l : List Nat) (j k s' : Nat), j < l.length →
      wsum k (l.set j s') + (k + j) * l.getD j 0 = wsum k l + (k + j) * s'
  | [], j, k, s', hj => by simp at hj
  | d :: l, 0, k, s', _ => by
      simp only [List.set_cons_zero, wsum, List.getD_cons_zero]
      ring
  | d :: l, j + 1, k, s', hj => by
      simp only [List.set_cons_succ, wsum, List.getD_cons_succ]
      have h := wsum_set l j (k + 1) s' (by simpa using hj)
      have he : k + (j + 1) = (k + 1) + j := by omega
      rw [he]
      omega

theorem checksum_set_ne (l : List Nat) (j s' : Nat) (hj : j < l.length)
    (hl : ∀ s ∈ l, s < 32) (hs : s' < 32) (hne : s' ≠ l.getD j 0)
    (hlen : l.length ≤ 1020) : checksum (l.set j s') ≠ checksum l := by
  intro hmod
  haveI : Fact (Nat.Prime 1021) := ⟨by norm_num⟩
  have hold : l.getD j 0 < 32 := hl _ (getD_mem l j 0 hj)
  have hmod' : wsum 1 (l.set j s') % 1021 = wsum 1 l % 1021 := by
    simpa [checksum, CHECKSUM_MOD] using hmod
  have hz : ((wsum 1 (l.set j s') : Nat) : ZMod 1021) = ((wsum 1 l : Nat) : ZMod 1021) :=
    (ZMod.natCast_eq_natCast_iff _ _ _).mpr hmod'
  have hw := wsum_set l j 1 s' hj
  have hcast := congrArg (fun n : Nat => (n : ZMod 1021)) hw
  push_cast at hcast
  rw [hz] at hcast
  have hcancel := add_left_cancel hcast
  have hwform : (1 : ZMod 1021) + (j : Nat) = ((1 + j : Nat) : ZMod 1021) := by
    push_cast
    ring
  rw [hwform] at hcancel
  have hwne : ((1 + j : Nat) : ZMod 1021) ≠ 0 := by
    intro h0
    have hv := congrArg ZMod.val h0
    rw [ZMod.val_cast_of_lt (by omega)] at hv
    simp at hv
  have hmul := mul_left_cancel₀ hwne hcancel
  have hval := congrArg ZMod.val hmul
  rw [ZMod.val_cast_of_lt (by omega), ZMod.val_cast_of_lt (by omega)] at hval
  exact hne hval.symm

theorem checksumSyms_ne_of_checksum_ne {d1 d2 : List Nat}
    (h : checksum d1 ≠ checksum d2) : checksumSyms d1 ≠ checksumSyms d2 := by
  intro he
  apply h
  have h1 : checksum d1 / 32 = checksum d2 / 32 := by
    simpa [checksumSyms] using congrArg (fun l => l.getD 0 0) he
  have h2 : checksum d1 % 32 = checksum d2 % 32 := by
    simpa [checksumSyms] using congrArg (fun l => l.getD 1 0) he
  omega

/-- C8: flipping any single character of a valid encoded address — in the
network part, the separator, the data symbols or the checksum symbols — yields
a string on which `decodeAddress` fails. -/
theorem decodeAddress_flip_fails (version : Nat) (network : Network)
    (payload : List Nat) (_hv : version ∈ VERSIONS) (hlen : payload.length = 32)
    (_hbytes : ∀ b ∈ payload, b < 256) (i : Nat)
    (hi : i < (encodeAddress version network payload).length) (c : Char)
    (hc : c ≠ (encodeAddress version network payload).getD i ' ') :
    decodeAddress ((encodeAddress version network payload).set i c) = none := by
  have hdata32 : ∀ s ∈ bytesToSyms (version :: payload), s < 32 := bytesToSyms_lt _
  have hfull32 : ∀ s ∈ bytesToSyms (version :: payload) ++
      checksumSyms (bytesToSyms (version :: payload)), s < 32 := by
    intro s hs
    rcases List.mem_append.mp hs with hs | hs
    · exact hdata32 s hs
    · exact checksumSyms_lt _ s hs
  have hbodync : ∀ d ∈ (bytesToSyms (version :: payload) ++
      checksumSyms (bytesToSyms (version :: payload))).map charOfSym, d ≠ ':' := by
    intro d hd
    obtain ⟨s, hs, rfl⟩ := List.mem_map.mp hd
    have hm := charOfSym_mem_charset s (hfull32 s hs)
    intro heq
    rw [heq] at hm
    exact (colon_not_mem_charset ▸ hm)
  have hA : encodeAddress version network payload = hrpOf network ++ ':' ::
      ((bytesToSyms (version :: payload) ++
        checksumSyms (bytesToSyms (version :: payload))).map charOfSym) := by
    simp [encodeAddress]
  have hdatalen : (bytesToSyms (version :: payload)).length ≤ 1020 := by
    have h1 := bytesToSyms_length_le (version :: payload)
    simp only [List.length_cons, hlen] at h1
    omega
  have hcslen : (checksumSyms (bytesToSyms (version :: payload))).length = 2 := rfl
  rcases Nat.lt_trichotomy i (hrpOf network).length with h1 | h1 | h1
  · -- flip inside the network part
    have hch : c ≠ (hrpOf network).getD i ' ' := by
      rw [hA] at hc
      rwa [getD_append_left _ _ i ' ' h1] at hc
    have hset : (encodeAddress version network payload).set i c =
        (hrpOf network).set i c ++ ':' ::
          ((bytesToSyms (version :: payload) ++
            checksumSyms (bytesToSyms (version :: payload))).map charOfSym) := by
      rw [hA]
      exact set_append_left _ _ i c h1
    by_cases hcc : c = ':'
    · subst hcc
      rw [hset, set_eq_take_cons_drop _ i ':' h1, List.append_assoc, List.cons_append]
      have htnc : ∀ d ∈ (hrpOf network).take i, d ≠ ':' :=
        fun d hd => hrp_no_colon network d (mem_of_mem_take _ i d hd)
      rw [decodeAddress, splitColon_append _ htnc _]
      cases hnw : networkOfHrp ((hrpOf network).take i) with
      | none => simp only [hnw]
      | some nw' =>
          have hbad : symsOfChars ((hrpOf network).drop (i + 1) ++ ':' ::
              ((bytesToSyms (version :: payload) ++
                checksumSyms (bytesToSyms (version :: payload))).map charOfSym)) = none := by
            refine symsOfChars_none_of_bad _ ':' ?_ symOfChar_colon
            exact List.mem_append_right _ (List.mem_cons_self ':' _)
          simp only [hnw, hbad]
    · have hsetnc : ∀ d ∈ (hrpOf network).set i c, d ≠ ':' := by
        intro d hd
        rcases mem_set_either _ i c d hd with hm | rfl
        · exact hrp_no_colon network d hm
        · exact hcc
      rw [hset, decodeAddress, splitColon_append _ hsetnc _]
      simp only [networkOfHrp_set_ne network i c h1 hch]
  · -- flip of the colon separator
    have hcolon : (encodeAddress version network payload).getD i ' ' = ':' := by
      rw [hA, h1]
      have h0 := getD_append_right (hrpOf network)
        (':' :: ((bytesToSyms (version :: payload) ++
          checksumSyms (bytesToSyms (version :: payload))).map charOfSym)) 0 ' '
      simpa using h0
    have hcne : c ≠ ':' := by
      rw [hcolon] at hc
      exact hc
    have hset : (encodeAddress version network payload).set i c =
        hrpOf network ++ c ::
          ((bytesToSyms (version :: payload) ++
            checksumSyms (bytesToSyms (version :: payload))).map charOfSym) := by
      rw [hA, h1, set_append_right _ _ _ c (le_refl _), Nat.sub_self]
      rfl
    have hnc : ∀ d ∈ hrpOf network ++ c ::
        ((bytesToSyms (version :: payload) ++
          checksumSyms (bytesToSyms (version :: payload))).map charOfSym), d ≠ ':' := by
      intro d hd
      rcases List.mem_append.mp hd with hm | hm
      · exact hrp_no_colon network d hm
      · rcases List.mem_cons.mp hm with rfl | hm
        · exact hcne
        · exact hbodync d hm
    rw [hset, decodeAddress, splitColon_none _ hnc]
  · -- flip inside the data or checksum symbols
    have hlenA : (encodeAddress version network payload).length =
        (hrpOf network).length + 1 +
          ((bytesToSyms (version :: payload) ++
            checksumSyms (bytesToSyms (version :: payload))).map charOfSym).length := by
      rw [hA]
      simp only [List.length_append, List.length_cons, List.length_map]
      omega
    have hj : i - (hrpOf network).length - 1 <
        ((bytesToSyms (version :: payload) ++
          checksumSyms (bytesToSyms (version :: payload))).map charOfSym).length := by
      rw [hlenA] at hi
      omega
    have hjf : i - (hrpOf network).length - 1 <
        (bytesToSyms (version :: payload) ++
          checksumSyms (bytesToSyms (version :: payload))).length := by
      rwa [List.length_map] at hj
    have hset : (encodeAddress version network payload).set i c =
        hrpOf network ++ ':' ::
          (((bytesToSyms (version :: payload) ++
            checksumSyms (bytesToSyms (version :: payload))).map charOfSym).set
              (i - (hrpOf network).length - 1) c) := by
      rw [hA, set_append_right _ _ i c (by omega)]
      have hidx : i - (hrpOf network).length = (i - (hrpOf network).length - 1) + 1 := by
        omega
      rw [hidx, List.set_cons_succ]
      simp
    have hcb : c ≠ ((bytesToSyms (version :: payload) ++
        checksumSyms (bytesToSyms (version :: payload))).map charOfSym).getD
          (i - (hrpOf network).length - 1) ' ' := by
      rw [hA] at hc
      have hidx : i = (hrpOf network).length + ((i - (hrpOf network).length - 1) + 1) := by
        omega
      rw [hidx, getD_append_right, List.getD_cons_succ] at hc
      exact hc
    rw [hset, decodeAddress, splitColon_append _ (hrp_no_colon network) _]
    simp only [networkOfHrp_hrpOf]
    cases hsc : symOfChar c with
    | none =>
        have hbad : symsOfChars
            (((bytesToSyms (version :: payload) ++
              checksumSyms (bytesToSyms (version :: payload))).map charOfSym).set
                (i - (hrpOf network).length - 1) c) = none :=
          symsOfChars_none_of_bad _ c (mem_set_self _ _ c hj) hsc
        simp only [hbad]
    | some s' =>
        obtain ⟨hs32, hchar⟩ := symOfChar_sound hsc
        have hsyms : symsOfChars
            (((bytesToSyms (version :: payload) ++
              checksumSyms (bytesToSyms (version :: payload))).map charOfSym).set
                (i - (hrpOf network).length - 1) c) =
            some ((bytesToSyms (version :: payload) ++
              checksumSyms (bytesToSyms (version :: payload))).set
                (i - (hrpOf network).length - 1) s') :=
          symsOfChars_map_set _ _ c s' hfull32 hsc hjf
        have hs'ne : s' ≠ (bytesToSyms (version :: payload) ++
            checksumSyms (bytesToSyms (version :: payload))).getD
              (i - (hrpOf network).length - 1) 0 := by
          intro he
          apply hcb
          rw [← hchar, he, getD_map_charOfSym _ _ hjf]
        simp only [hsyms]
        have hlenset : ((bytesToSyms (version :: payload) ++
            checksumSyms (bytesToSyms (version :: payload))).set
              (i - (hrpOf network).length - 1) s').length =
            (bytesToSyms (version :: payload)).length + 2 := by
          rw [List.length_set, List.length_append, hcslen]
        rw [if_neg (by rw [hlenset]; omega)]
        have hn2 : ((bytesToSyms (version :: payload) ++
            checksumSyms (bytesToSyms (version :: payload))).set
              (i - (hrpOf network).length - 1) s').length - 2 =
            (bytesToSyms (version :: payload)).length := by
          rw [hlenset]
          omega
        rw [hn2]
        rcases Nat.lt_or_ge (i - (hrpOf network).length - 1)
            (bytesToSyms (version :: payload)).length with hjd | hjd
        · -- the flipped symbol lies in the data part
          have hset2 : (bytesToSyms (version :: payload) ++
              checksumSyms (bytesToSyms (version :: payload))).set
                (i - (hrpOf network).length - 1) s' =
              (bytesToSyms (version :: payload)).set
                (i - (hrpOf network).length - 1) s' ++
                checksumSyms (bytesToSyms (version :: payload)) :=
            set_append_left _ _ _ s' hjd
          rw [hset2, List.take_left' (List.length_set _ _ _),
            List.drop_left' (List.length_set _ _ _)]
          have hchk : checksum ((bytesToSyms (version :: payload)).set
              (i - (hrpOf network).length - 1) s') ≠
              checksum (bytesToSyms (version :: payload)) := by
            refine checksum_set_ne _ _ s' hjd hdata32 hs32 ?_ hdatalen
            rwa [getD_append_left _ _ _ 0 hjd] at hs'ne
          rw [if_neg]
          intro he
          exact checksumSyms_ne_of_checksum_ne hchk he.symm
        · -- the flipped symbol lies in the checksum part
          have hset2 : (bytesToSyms (version :: payload) ++
              checksumSyms (bytesToSyms (version :: payload))).set
                (i - (hrpOf network).length - 1) s' =
              bytesToSyms (version :: payload) ++
                (checksumSyms (bytesToSyms (version :: payload))).set
                  (i - (hrpOf network).length - 1 -
                    (bytesToSyms (version :: payload)).length) s' :=
            set_append_right _ _ _ s' hjd
          rw [hset2, List.take_left, List.drop_left]
          have hm2 : i - (hrpOf network).length - 1 -
              (bytesToSyms (version :: payload)).length < 2 := by
            rw [List.length_append, hcslen] at hjf
            omega
          have hsm : s' ≠ (checksumSyms (bytesToSyms (version :: payload))).getD
              (i - (hrpOf network).length - 1 -
                (bytesToSyms (version :: payload)).length) 0 := by
            intro he
            apply hs'ne
            have hidx : i - (hrpOf network).length - 1 =
                (bytesToSyms (version :: payload)).length +
                  (i - (hrpOf network).length - 1 -
                    (bytesToSyms (version :: payload)).length) := by
              omega
            rw [hidx, getD_append_right]
            exact he
          rw [if_neg]
          exact fun he => set_ne_of_ne _ _ s' 0 (by rw [hcslen]; exact hm2) hsm he

set_option maxRecDepth 100000 in
/-- Witness for C8: flipping the leading `h` of a concrete valid address to `x`
makes decoding fail. -/
theorem decodeAddress_flip_fails_witness :
    decodeAddress ((encodeAddress 1 Network.mainnet (List.replicate 32 171)).set 0 'x') =
      none :=
  decodeAddress_flip_fails 1 Network.mainnet (List.replicate 32 171)
    (by decide) (by simp) (by simp) 0 (by decide) 'x' (by decide)

/-! ## Deterministic signer (spec §4.5, §8; the HoosatSigner source is not in
the provided tree, so ECDSA over secp256k1 with an RFC6979-style nonce is
modelled from the spec and the README's technical notes) -/

/-- The secp256k1 field modulus. -/
def secpP : Nat := 2 ^ 256 - 2 ^ 32 - 977

/-- The secp256k1 group order. -/
def secpN : Nat :=
  0xFFFFFFFFFFFFFFFFFFFFFFFFFFFFFFFEBAAEDCE6AF48A03BBFD25E8CD0364141

/-- x-coordinate of the secp256k1 generator point. -/
def secpGx : Nat :=
  0x79BE667EF9DCBBAC55A06295CE870B07029BFCDB2DCE28D959F2815B16F81798

/-- y-coordinate of the secp256k1 generator point. -/
def secpGy : Nat :=
  0x483ADA7726A3C4655DA4FBFC0E1108A8FD17B448A68554199C47D08FFB10D4B8

/-- Modular exponentiation, structurally recursive in the exponent. -/
def modPow (b : Nat) : Nat → Nat → Nat
  | 0, m => 1 % m
  | e + 1, m => b * modPow b e m % m

/-- Modular inverse by Fermat's little theorem. -/
def modInv (a m : Nat) : Nat := modPow a (m - 2) m

/-- Affine point addition on the secp256k1 curve (`none` is the point at
infinity). -/
def ecAdd (p q : Option (Nat × Nat)) : Option (Nat × Nat) :=
  match p, q with
  | none, q => q
  | p, none => p
  | some (x1, y1), some (x2, y2) =>
      if x1 = x2 then
        if (y1 + y2) % secpP = 0 then none
        else
          let lam := 3 * x1 * x1 * modInv (2 * y1) secpP % secpP
          let x3 := (lam * lam + 2 * secpP * secpP - x1 - x2) % secpP
          let y3 := (lam * (x1 + secpP - x3) + secpP * secpP - y1) % secpP
          some (x3, y3)
      else
        let lam := (y2 + secpP - y1) * modInv (x2 + secpP - x1) secpP % secpP
        let x3 := (lam * lam + 2 * secpP * secpP - x1 - x2) % secpP
        let y3 := (lam * (x1 + secpP - x3) + secpP * secpP - y1) % secpP
        some (x3, y3)

/-- Double-and-add scalar multiplication, with enough fuel for 256-bit scalars. -/
def ecMulAux : Nat → Nat → Option (Nat × Nat) → Option (Nat × Nat)
  | 0, _, _ => none
  | fuel + 1, k, p =>
      if k = 0 then none
      else
        let half := ecMulAux fuel (k / 2) (ecAdd p p)
        if k % 2 = 1 then ecAdd p half else half

/-- Scalar multiple of the generator point. -/
def ecMulG (k : Nat) : Option (Nat × Nat) :=
  ecMulAux 257 k (some (secpGx, secpGy))

/-- Modelled from the spec: the RFC6979 deterministic nonce (spec §4.5, §9
design note: "a pure function of (private key, message hash) with no hidden
randomness source").  The HMAC-DRBG internals are modelled by a fixed injective
mixing of the two inputs into the scalar range; what the claims consume is that
the nonce is a function of the key and hash alone. -/
def deriveNonceRFC6979 (privateKey messageHash : Nat) : Nat :=
  (privateKey * 2 ^ 256 + messageHash) % (secpN - 1) + 1

/-- ECDSA signature computation for a given nonce: `r` is the x-coordinate of
`nonce·G` reduced mod the group order, `s = nonce⁻¹(hash + r·key)` mod it. -/
def ecdsaSignWithNonce (privateKey messageHash nonce : Nat) : Option (Nat × Nat) :=
  match ecMulG nonce with
  | none => none
  | some (x, _) =>
      let r := x % secpN
      let s := modInv nonce secpN * (messageHash + r * privateKey) % secpN
      if r = 0 ∨ s = 0 then none else some (r, s)

/-- Modelled from the spec: `sign(privateKey, hash) → signature` (spec §4.5) —
the nonce is derived from the private key and message hash alone and the
signature is a pure function of the two. -/
def sign (privateKey messageHash : Nat) : Option (Nat × Nat) :=
  ecdsaSignWithNonce privateKey messageHash (deriveNonceRFC6979 privateKey messageHash)

/-- C6: signing is deterministic — two calls with the same private key and
hash return the same signature — and the signature is computed from a nonce
that depends only on the message hash and private key, with no random input
anywhere in the computation (`sign` is a pure function of exactly those two
arguments). -/
theorem sign_deterministic (privateKey messageHash : Nat) :
    sign privateKey messageHash = sign privateKey messageHash ∧
      sign privateKey messageHash =
        ecdsaSignWithNonce privateKey messageHash
          (deriveNonceRFC6979 privateKey messageHash) ∧
      ∀ k' h' : Nat, k' = privateKey → h' = messageHash →
        sign k' h' = sign privateKey messageHash := by
  refine ⟨rfl, rfl, ?_⟩
  intro k' h' hk hh
  rw [hk, hh]

/-- Witness for C6: two textually separate invocations of `sign` on the same
concrete key and hash coincide. -/
theorem sign_deterministic_witness : sign 7 11 = sign 7 11 :=
  (sign_deterministic 7 11).2.2 7 11 rfl rfl

end Hoosat
